import Mathlib

/-!
Verification of the response-extraction-and-validation pipeline of the
JSONPROMPTEE backend (backend/server.js).

The embedding models JavaScript strings as lists of characters (one entry
per UTF-16 code unit), JSON values as an inductive type, and the
`/api/convert` handler as a pure function over explicit collaborator
parameters (the provider response and the `JSON.parse` builtin), so that
every branch of the handler corresponds to a constructor of `Outcome`.
-/

namespace JSONPromptee

/-- JSON values as produced by `JSON.parse` on the provider response body.
Numbers are modelled as integers: the schema validator only inspects which
constructor a value uses, never the numeric content. -/
inductive JSON where
  | null : JSON
  | bool : Bool → JSON
  | num : Int → JSON
  | str : String → JSON
  | arr : List JSON → JSON
  | obj : List (String × JSON) → JSON

/-- Property access `fields[key]` on a parsed JSON object: first entry whose
key matches, `none` when the property is absent. -/
def lookupField (fields : List (String × JSON)) (key : String) : Option JSON :=
  match fields with
  | [] => none
  | (k, v) :: rest => if k = key then some v else lookupField rest key

/-- Property assignment `fields[key] = v` on a parsed JSON object: updates the
first entry with that key in place, or appends a new entry. -/
def setField (fields : List (String × JSON)) (key : String) (v : JSON) :
    List (String × JSON) :=
  match fields with
  | [] => [(key, v)]
  | (k, w) :: rest => if k = key then (k, v) :: rest else (k, w) :: setField rest key v

/-- Schema keyword `type: "string"` (Ajv). -/
def isString : JSON → Bool
  | .str _ => true
  | _ => false

/-- Schema keyword `type: "number"` (Ajv). -/
def isNumber : JSON → Bool
  | .num _ => true
  | _ => false

/-- Schema keyword `type: ["number", "null"]` used for `seed` (Ajv). -/
def isNumberOrNull : JSON → Bool
  | .num _ => true
  | .null => true
  | _ => false

/-- One schema violation reported by the compiled Ajv validator: either a
required property is missing at some path, or a present value has the wrong
type. -/
inductive Violation where
  | missingField (path : String) (field : String)
  | wrongType (path : String) (expected : String)
  deriving DecidableEq

/-- Violations from the `required: ["prompt", "params"]` keyword of
`jsonSchema` (server.js line 60). -/
def requiredViolations (fields : List (String × JSON)) : List Violation :=
  (if (lookupField fields "prompt").isSome then []
   else [Violation.missingField "" "prompt"]) ++
  (if (lookupField fields "params").isSome then []
   else [Violation.missingField "" "params"])

/-- Check a present value against `type: "string"`. -/
def checkString (path : String) (v : JSON) : List Violation :=
  if isString v then [] else [Violation.wrongType path "string"]

/-- Check a present value against `type: "number"`. -/
def checkNumber (path : String) (v : JSON) : List Violation :=
  if isNumber v then [] else [Violation.wrongType path "number"]

/-- Check a present value against `type: ["number", "null"]`. -/
def checkNumOrNull (path : String) (v : JSON) : List Violation :=
  if isNumberOrNull v then [] else [Violation.wrongType path "number,null"]

/-- Ajv checks a `properties` entry only when the property is present. -/
def checkOpt (fields : List (String × JSON)) (key : String)
    (checker : JSON → List Violation) : List Violation :=
  match lookupField fields key with
  | none => []
  | some v => checker v

/-- The `details` sub-schema of `jsonSchema` (server.js lines 38 to 47):
an object with four optional string properties and `required: ["subject"]`. -/
def detailsViolations (v : JSON) : List Violation :=
  match v with
  | .obj df =>
      (if (lookupField df "subject").isSome then []
       else [Violation.missingField "/details" "subject"]) ++
      checkOpt df "subject" (checkString "/details/subject") ++
      checkOpt df "background" (checkString "/details/background") ++
      checkOpt df "mood" (checkString "/details/mood") ++
      checkOpt df "colors" (checkString "/details/colors")
  | _ => [Violation.wrongType "/details" "object"]

/-- The `params` sub-schema of `jsonSchema` (server.js lines 48 to 58):
an object with six optional typed properties and no `required` list. -/
def paramsViolations (v : JSON) : List Violation :=
  match v with
  | .obj pf =>
      checkOpt pf "engine" (checkString "/params/engine") ++
      checkOpt pf "resolution" (checkString "/params/resolution") ++
      checkOpt pf "cfg_scale" (checkNumber "/params/cfg_scale") ++
      checkOpt pf "steps" (checkNumber "/params/steps") ++
      checkOpt pf "sampler" (checkString "/params/sampler") ++
      checkOpt pf "seed" (checkNumOrNull "/params/seed")
  | _ => [Violation.wrongType "/params" "object"]

/-- The compiled Ajv validator `validateJSON = ajv.compile(jsonSchema)`
(server.js lines 30 to 62), returning the list of schema violations; the
boolean Ajv result is `validateJSON j = []`.  The top level requires an
object with `required: ["prompt", "params"]`, five optional string
properties, and the `details` and `params` sub-schemas. -/
def validateJSON (j : JSON) : List Violation :=
  match j with
  | .obj fields =>
      requiredViolations fields ++
      checkOpt fields "prompt" (checkString "/prompt") ++
      checkOpt fields "negative_prompt" (checkString "/negative_prompt") ++
      checkOpt fields "style" (checkString "/style") ++
      checkOpt fields "lighting" (checkString "/lighting") ++
      checkOpt fields "camera" (checkString "/camera") ++
      checkOpt fields "details" detailsViolations ++
      checkOpt fields "params" paramsViolations
  | _ => [Violation.wrongType "" "object"]

/-- JavaScript `String.prototype.trim`: drop whitespace code units from both
ends. -/
def jsTrim (s : List Char) : List Char :=
  (((s.dropWhile Char.isWhitespace).reverse).dropWhile Char.isWhitespace).reverse

/-- `sanitizeInput` (server.js lines 65 to 70): non-strings and the empty
string map to the empty string, otherwise `text.trim().slice(0, 800)`.
The argument is the raw `req.body.prompt` value, `none` when absent. -/
def sanitizeInput (v : Option JSON) : List Char :=
  match v with
  | some (.str s) => if s = "" then [] else (jsTrim s.data).take 800
  | _ => []

/-- JavaScript truthiness of a parsed JSON value (numbers modelled as
integers, so `0` is the falsy number). -/
def isTruthy : JSON → Bool
  | .null => false
  | .bool b => b
  | .num n => n ≠ 0
  | .str s => s ≠ ""
  | .arr _ => true
  | .obj _ => true

/-- `const enginePref = req.body.engine || "stable"` (server.js line 112):
the server-accepted engine preference, defaulting to `"stable"` when the
body's `engine` field is absent or falsy. -/
def enginePrefOf (engine : Option JSON) : JSON :=
  match engine with
  | none => .str "stable"
  | some v => if isTruthy v then v else .str "stable"

/-- The inString update of the extraction scan (server.js line 201):
`if(ch === DQUOTE and text[i-1] !== BACKSLASH) inString = !inString`.
`prev` is `text[i-1]`, `none` at the start of the text (undefined in JS). -/
def nextInString (prev : Option Char) (ch : Char) (inString : Bool) : Bool :=
  if ch = '"' ∧ prev ≠ some '\\' then !inString else inString

/-- The depth update of the extraction scan (server.js lines 203 to 204):
increment on an opening brace, decrement on a closing brace. -/
def nextDepth (ch : Char) (depth : Int) : Int :=
  if ch = '{' then depth + 1 else if ch = '}' then depth - 1 else depth

/-- The scan loop of `extractJSON` (server.js lines 199 to 209), started at
the first opening brace.  Returns the number of characters consumed up to
and including the one at which `depth` reached 0 outside a string, or `none`
when the text ends first.  The depth update and the depth test are skipped
while `inString` holds, matching the `if(!inString)` guard. -/
def scanFrom : List Char → Option Char → Bool → Int → Option Nat
  | [], _, _, _ => none
  | c :: cs, prev, inString, depth =>
    if nextInString prev c inString then
      (scanFrom cs (some c) (nextInString prev c inString) depth).map (· + 1)
    else
      if nextDepth c depth = 0 then some 1
      else (scanFrom cs (some c) (nextInString prev c inString) (nextDepth c depth)).map (· + 1)

/-- `text.indexOf` of an opening brace (server.js line 195), returned as the
character preceding the brace (the `text[i-1]` seen by the first scan step)
together with the suffix of the text starting at the brace. -/
def findBrace : List Char → Option Char → Option (Option Char × List Char)
  | [], _ => none
  | c :: cs, prev => if c = '{' then some (prev, c :: cs) else findBrace cs (some c)

/-- `extractJSON` (server.js lines 193 to 211): locate the first opening
brace, scan for the matching close, and return `text.slice(start, i+1)`;
`none` models the JavaScript `null` returns. -/
def extractJSON (text : List Char) : Option (List Char) :=
  match findBrace text none with
  | none => none
  | some (prev, rest) => (scanFrom rest prev false 0).map (fun n => rest.take n)

/-- A balanced object in the sense of the scan: the text starts with an
opening brace and the scanner's depth counter, with string contents excluded
by its quote rule, first returns to 0 exactly at the last character. -/
def BalancedObject (obj : List Char) : Prop :=
  obj.head? = some '{' ∧ scanFrom obj none false 0 = some obj.length

instance (obj : List Char) : Decidable (BalancedObject obj) :=
  inferInstanceAs (Decidable (obj.head? = some '{' ∧ scanFrom obj none false 0 = some obj.length))

/-- The policy-enforcement assignment `outputObj.params.engine = enginePref`
(server.js line 182).  `none` models the TypeError thrown when `params` is
not an object (then caught by the handler's try/catch); schema validation
makes that branch unreachable in the pipeline. -/
def enforceEngine (j : JSON) (enginePref : JSON) : Option JSON :=
  match j with
  | .obj fields =>
      match lookupField fields "params" with
      | some (.obj pf) =>
          some (.obj (setField fields "params" (.obj (setField pf "engine" enginePref))))
      | _ => none
  | _ => none

/-- The provider call, an external collaborator: either an HTTP failure
(`!openaiRes.ok`) or a success carrying the extracted message text
(`choices[0].message.content || choices[0].text`, the empty list when that
is absent or empty). -/
inductive ProviderResult where
  | httpError (detail : List Char)
  | success (rawText : List Char)

/-- The distinct failure outcomes of the `/api/convert` handler, one per
early-return branch (server.js lines 114 to 188). -/
inductive FailureKind where
  | emptyPrompt
  | misconfigured
  | providerError (detail : List Char)
  | emptyProviderResponse
  | noJSONFound (raw : List Char)
  | invalidJSON (candidate : List Char)
  | schemaViolation (violations : List Violation)
  | serverError

/-- Result of one `/api/convert` request. -/
inductive Outcome where
  | failed (k : FailureKind)
  | completed (spec : JSON)

/-- The `/api/convert` handler (server.js lines 109 to 190) as a pure
function.  `hasKey` is the truthiness of the configured provider credential,
`provider` the response of the external provider, and `parse` the
`JSON.parse` builtin (`none` for a parse exception).  The boolean result
records whether the provider call was reached. -/
def convert (hasKey : Bool) (provider : ProviderResult)
    (parse : List Char → Option JSON)
    (bodyPrompt bodyEngine : Option JSON) : Outcome × Bool :=
  let enginePref := enginePrefOf bodyEngine
  let userPrompt := sanitizeInput bodyPrompt
  if userPrompt = [] then (.failed .emptyPrompt, false)
  else if hasKey = false then (.failed .misconfigured, false)
  else
    match provider with
    | .httpError d => (.failed (.providerError d), true)
    | .success rawText =>
      if rawText = [] then (.failed .emptyProviderResponse, true)
      else
        match extractJSON rawText with
        | none => (.failed (.noJSONFound rawText), true)
        | some cand =>
          match parse cand with
          | none => (.failed (.invalidJSON cand), true)
          | some outputObj =>
            match validateJSON outputObj with
            | [] =>
                match enforceEngine outputObj enginePref with
                | some spec => (.completed spec, true)
                | none => (.failed .serverError, true)
            | v :: vs => (.failed (.schemaViolation (v :: vs)), true)

/-! ### Scanner lemmas -/

/-- Unfolding equation for one step of the scan loop. -/
theorem scanFrom_cons (c : Char) (cs : List Char) (p : Option Char) (b : Bool) (d : Int) :
    scanFrom (c :: cs) p b d =
      if nextInString p c b then
        (scanFrom cs (some c) (nextInString p c b) d).map (· + 1)
      else if nextDepth c d = 0 then some 1
      else (scanFrom cs (some c) (nextInString p c b) (nextDepth c d)).map (· + 1) := rfl

/-- A character other than a double quote never changes the inString flag. -/
theorem nextInString_not_quote {prev : Option Char} {c : Char} {b : Bool}
    (h : c ≠ '"') : nextInString prev c b = b := by
  unfold nextInString
  rw [if_neg]
  rintro ⟨hc, -⟩
  exact h hc

/-- The scan only looks at the characters it consumes, so a successful scan
is preserved by appending text. -/
theorem scanFrom_append {xs : List Char} (ys : List Char) {p : Option Char} {b : Bool}
    {d : Int} {n : Nat} (h : scanFrom xs p b d = some n) :
    scanFrom (xs ++ ys) p b d = some n := by
  induction xs generalizing p b d n with
  | nil => simp [scanFrom] at h
  | cons c cs ih =>
    rw [List.cons_append]
    rw [scanFrom_cons] at h ⊢
    by_cases hin : nextInString p c b = true
    · rw [if_pos hin] at h ⊢
      rcases hm : scanFrom cs (some c) (nextInString p c b) d with _ | m
      · rw [hm] at h
        exact absurd h (by simp)
      · rw [hm] at h
        rw [ih hm]
        exact h
    · rw [if_neg hin] at h ⊢
      by_cases hd : nextDepth c d = 0
      · rw [if_pos hd] at h ⊢
        exact h
      · rw [if_neg hd] at h ⊢
        rcases hm : scanFrom cs (some c) (nextInString p c b) (nextDepth c d) with _ | m
        · rw [hm] at h
          exact absurd h (by simp)
        · rw [hm] at h
          rw [ih hm]
          exact h

/-- A successful scan consumes at most the whole text, and scanning just the
consumed part succeeds with the same count. -/
theorem scanFrom_take {xs : List Char} {p : Option Char} {b : Bool}
    {d : Int} {n : Nat} (h : scanFrom xs p b d = some n) :
    n ≤ xs.length ∧ scanFrom (xs.take n) p b d = some n := by
  induction xs generalizing p b d n with
  | nil => simp [scanFrom] at h
  | cons c cs ih =>
    rw [scanFrom_cons] at h
    by_cases hin : nextInString p c b = true
    · rw [if_pos hin] at h
      rcases hm : scanFrom cs (some c) (nextInString p c b) d with _ | m
      · rw [hm] at h
        exact absurd h (by simp)
      · rw [hm] at h
        rw [Option.map_some'] at h
        obtain rfl : m + 1 = n := Option.some.inj h
        obtain ⟨hle, htake⟩ := ih hm
        refine ⟨by simpa using Nat.succ_le_succ hle, ?_⟩
        rw [List.take_succ_cons, scanFrom_cons, if_pos hin, htake]
        rfl
    · rw [if_neg hin] at h
      by_cases hd : nextDepth c d = 0
      · rw [if_pos hd] at h
        obtain rfl : 1 = n := Option.some.inj h
        refine ⟨by simp, ?_⟩
        rw [List.take_succ_cons, List.take_zero, scanFrom_cons, if_neg hin, if_pos hd]
      · rw [if_neg hd] at h
        rcases hm : scanFrom cs (some c) (nextInString p c b) (nextDepth c d) with _ | m
        · rw [hm] at h
          exact absurd h (by simp)
        · rw [hm] at h
          rw [Option.map_some'] at h
          obtain rfl : m + 1 = n := Option.some.inj h
          obtain ⟨hle, htake⟩ := ih hm
          refine ⟨by simpa using Nat.succ_le_succ hle, ?_⟩
          rw [List.take_succ_cons, scanFrom_cons, if_neg hin, if_neg hd, htake]
          rfl

/-- The previous character fed into the scan is irrelevant when the scan
starts at an opening brace. -/
theorem scanFrom_brace_prev (cs : List Char) (p q : Option Char) (b : Bool) (d : Int) :
    scanFrom ('{' :: cs) p b d = scanFrom ('{' :: cs) q b d := by
  rw [scanFrom_cons, scanFrom_cons,
    nextInString_not_quote (by decide), nextInString_not_quote (by decide)]

/-- A successful scan of a nonempty text consumes at least one character. -/
theorem scanFrom_pos {c : Char} {cs : List Char} {p : Option Char} {b : Bool}
    {d : Int} {n : Nat} (h : scanFrom (c :: cs) p b d = some n) : 1 ≤ n := by
  rw [scanFrom_cons] at h
  by_cases hin : nextInString p c b = true
  · rw [if_pos hin] at h
    rcases hm : scanFrom cs (some c) (nextInString p c b) d with _ | m
    · rw [hm] at h
      exact absurd h (by simp)
    · rw [hm] at h
      rw [Option.map_some'] at h
      obtain rfl : m + 1 = n := Option.some.inj h
      omega
  · rw [if_neg hin] at h
    by_cases hd : nextDepth c d = 0
    · rw [if_pos hd] at h
      obtain rfl : 1 = n := Option.some.inj h
      omega
    · rw [if_neg hd] at h
      rcases hm : scanFrom cs (some c) (nextInString p c b) (nextDepth c d) with _ | m
      · rw [hm] at h
        exact absurd h (by simp)
      · rw [hm] at h
        rw [Option.map_some'] at h
        obtain rfl : m + 1 = n := Option.some.inj h
        omega

/-- Unfolding equation for one step of the brace search. -/
theorem findBrace_cons (c : Char) (cs : List Char) (p : Option Char) :
    findBrace (c :: cs) p = if c = '{' then some (p, c :: cs) else findBrace cs (some c) :=
  rfl

/-- The brace search fails on text with no opening brace. -/
theorem findBrace_none {xs : List Char} (h : ∀ c ∈ xs, c ≠ '{') (p : Option Char) :
    findBrace xs p = none := by
  induction xs generalizing p with
  | nil => rfl
  | cons c cs ih =>
    rw [findBrace_cons, if_neg (h c (List.mem_cons_self c cs))]
    exact ih (fun a ha => h a (List.mem_cons_of_mem c ha)) (some c)

/-- The brace search skips a brace-free front and stops at the first opening
brace. -/
theorem findBrace_before_brace {pre : List Char} (xs : List Char) (p : Option Char)
    (h : ∀ c ∈ pre, c ≠ '{') :
    ∃ q, findBrace (pre ++ '{' :: xs) p = some (q, '{' :: xs) := by
  induction pre generalizing p with
  | nil =>
    refine ⟨p, ?_⟩
    rw [List.nil_append, findBrace_cons, if_pos rfl]
  | cons c cs ih =>
    rw [List.cons_append, findBrace_cons, if_neg (h c (List.mem_cons_self c cs))]
    exact ih (some c) (fun a ha => h a (List.mem_cons_of_mem c ha))

/-- A successful brace search splits the text into a brace-free front and a
suffix starting with an opening brace. -/
theorem findBrace_sound {xs rest : List Char} {p q : Option Char}
    (h : findBrace xs p = some (q, rest)) :
    ∃ pre, xs = pre ++ rest ∧ (∀ c ∈ pre, c ≠ '{') ∧ ∃ cs, rest = '{' :: cs := by
  induction xs generalizing p with
  | nil => simp [findBrace] at h
  | cons c cs ih =>
    rw [findBrace_cons] at h
    by_cases hc : c = '{'
    · rw [if_pos hc] at h
      have h2 := Option.some.inj h
      injection h2 with hq hr
      refine ⟨[], by rw [List.nil_append, hr], by simp, cs, ?_⟩
      rw [← hr, hc]
    · rw [if_neg hc] at h
      obtain ⟨pre, heq, hpre, hcs⟩ := ih h
      refine ⟨c :: pre, by rw [List.cons_append, heq], ?_, hcs⟩
      intro a ha
      rcases List.mem_cons.mp ha with rfl | ha2
      · exact hc
      · exact hpre a ha2

/-- Main extraction helper: when the first opening brace of the text starts a
balanced object, `extractJSON` returns exactly that object, whatever follows
it. -/
theorem extractJSON_balanced_at_first_brace {pre obj : List Char} (rest : List Char)
    (hpre : ∀ c ∈ pre, c ≠ '{') (hobj : BalancedObject obj) :
    extractJSON (pre ++ obj ++ rest) = some obj := by
  obtain ⟨hhead, hscan⟩ := hobj
  obtain ⟨cs, rfl⟩ : ∃ cs, obj = '{' :: cs := by
    cases obj with
    | nil => simp at hhead
    | cons a as =>
      rw [List.head?_cons] at hhead
      exact ⟨as, by rw [Option.some.inj hhead]⟩
  have hassoc : pre ++ ('{' :: cs) ++ rest = pre ++ '{' :: (cs ++ rest) := by simp
  rw [hassoc]
  obtain ⟨q, hq⟩ := findBrace_before_brace (cs ++ rest) none hpre
  unfold extractJSON
  rw [hq]
  have h1 : scanFrom ('{' :: (cs ++ rest)) q false 0 = some (('{' :: cs).length) := by
    rw [scanFrom_brace_prev (cs ++ rest) q none false 0]
    have h2 : ('{' :: cs) ++ rest = '{' :: (cs ++ rest) := by simp
    rw [← h2]
    exact scanFrom_append rest hscan
  show Option.map (fun n => List.take n ('{' :: (cs ++ rest)))
      (scanFrom ('{' :: (cs ++ rest)) q false 0) = some ('{' :: cs)
  rw [h1]
  simp only [Option.map_some']
  congr 1
  rw [← List.cons_append]
  exact List.take_left _ _

/-! ### C1 and C3: extraction returns exactly the first balanced object -/

/-- C1: For every input text that contains exactly one well-formed
brace-balanced JSON object (a balanced object in the sense of the scan:
depth returns to 0 exactly at its last character, string contents excluded
by the quote rule), possibly preceded and followed by arbitrary text
containing no brace characters, `extractJSON` returns exactly that object's
substring — not `null`, not a shorter or longer slice. -/
theorem extractJSON_exact_object (pre obj post : List Char)
    (hpre : ∀ c ∈ pre, c ≠ '{' ∧ c ≠ '}')
    (hpost : ∀ c ∈ post, c ≠ '{' ∧ c ≠ '}')
    (hobj : BalancedObject obj) :
    extractJSON (pre ++ obj ++ post) = some obj :=
  extractJSON_balanced_at_first_brace post (fun c hc => (hpre c hc).1) hobj

/-- Witness for C1 on concrete text with one embedded object. -/
theorem extractJSON_exact_object_witness :
    extractJSON (("Sure: ").toList ++ ("\x7b\"a\":1\x7d").toList ++ (" ok").toList) =
      some ("\x7b\"a\":1\x7d").toList :=
  extractJSON_exact_object _ _ _ (by decide) (by decide) (by decide)

/-- C3: For every input text containing two or more balanced JSON objects
separated by other text, `extractJSON` returns only the first balanced
object, and all text after that first object's closing brace is discarded
(the result does not depend on `mid`, `obj2` or `post` at all). -/
theorem extractJSON_first_of_two (pre mid post obj1 obj2 : List Char)
    (hpre : ∀ c ∈ pre, c ≠ '{' ∧ c ≠ '}')
    (h1 : BalancedObject obj1) (h2 : BalancedObject obj2) :
    extractJSON (pre ++ obj1 ++ (mid ++ obj2 ++ post)) = some obj1 :=
  extractJSON_balanced_at_first_brace (mid ++ obj2 ++ post) (fun c hc => (hpre c hc).1) h1

/-- Witness for C3: from text with the objects of the spec's first-match
example, only the first is returned. -/
theorem extractJSON_first_of_two_witness :
    extractJSON (List.nil ++ ("\x7b\"a\":1\x7d").toList ++
        ((" and ").toList ++ ("\x7b\"b\":2\x7d").toList ++ [])) =
      some ("\x7b\"a\":1\x7d").toList :=
  extractJSON_first_of_two _ _ _ _ _ (by decide) (by decide) (by decide)

/-- Once the depth is positive, a text without any closing brace can never
bring it back to 0, so the scan fails. -/
theorem scanFrom_no_close {xs : List Char} (p : Option Char) (b : Bool) {d : Int}
    (hd : 1 ≤ d) (h : ∀ c ∈ xs, c ≠ '}') :
    scanFrom xs p b d = none := by
  induction xs generalizing p b d with
  | nil => rfl
  | cons c cs ih =>
    rw [scanFrom_cons]
    have hc : c ≠ '}' := h c (List.mem_cons_self c cs)
    have hrest : ∀ a ∈ cs, a ≠ '}' := fun a ha => h a (List.mem_cons_of_mem c ha)
    by_cases hin : nextInString p c b = true
    · rw [if_pos hin, ih (some c) (nextInString p c b) hd hrest]
      rfl
    · rw [if_neg hin]
      have hd2 : 1 ≤ nextDepth c d := by
        unfold nextDepth
        by_cases h1 : c = '{'
        · rw [if_pos h1]
          omega
        · rw [if_neg h1, if_neg hc]
          exact hd
      have hne : ¬ nextDepth c d = 0 := by omega
      rw [if_neg hne, ih (some c) (nextInString p c b) hd2 hrest]
      rfl

/-- Soundness of a successful extraction: the returned slice sits after a
brace-free front of the text and is itself a balanced object. -/
theorem extractJSON_some_sound {text s : List Char} (h : extractJSON text = some s) :
    ∃ pre rest, text = pre ++ s ++ rest ∧ (∀ c ∈ pre, c ≠ '{') ∧ BalancedObject s := by
  unfold extractJSON at h
  rcases hfb : findBrace text none with _ | ⟨q, rest0⟩
  · rw [hfb] at h
    simp at h
  · rw [hfb] at h
    replace h : Option.map (fun n => List.take n rest0) (scanFrom rest0 q false 0) = some s := h
    rcases hs : scanFrom rest0 q false 0 with _ | n
    · rw [hs] at h
      simp at h
    · rw [hs] at h
      rw [Option.map_some'] at h
      have hsEq : rest0.take n = s := Option.some.inj h
      obtain ⟨pre, hsplit, hpre, cs, hcs⟩ := findBrace_sound hfb
      obtain ⟨hle, htake⟩ := scanFrom_take hs
      subst hcs
      have hpos : 1 ≤ n := scanFrom_pos hs
      obtain ⟨m, rfl⟩ : ∃ m, n = m + 1 := ⟨n - 1, by omega⟩
      have htk : ('{' :: cs).take (m + 1) = '{' :: cs.take m := List.take_succ_cons
      have hheads : s.head? = some '{' := by
        rw [← hsEq, htk, List.head?_cons]
      have hscan2 : scanFrom s none false 0 = some (m + 1) := by
        rw [← hsEq, htk, scanFrom_brace_prev (cs.take m) none q false 0, ← htk, htake]
      have hlen : s.length = m + 1 := by
        rw [← hsEq, List.length_take]
        simp only [List.length_cons] at hle ⊢
        omega
      refine ⟨pre, List.drop (m + 1) ('{' :: cs), ?_, hpre, hheads, by rw [hscan2, hlen]⟩
      rw [hsplit, ← hsEq, List.append_assoc, List.take_append_drop]

/-! ### C4: the not-found signal -/

/-- C4: `extractJSON` returns the not-found signal (`none`) exactly when no
balanced object starts at the first opening brace of the input: in
particular, for every text containing no opening brace it returns `none`,
and, for every text containing an opening brace but no closing brace at all
(an unmatched brace, so the scan's depth counter never returns to 0), it
returns `none` rather than a partial substring — any returned slice is a
whole balanced object. -/
theorem extractJSON_none_characterisation (text : List Char) :
    (extractJSON text = none ↔
      ¬ ∃ pre obj rest, text = pre ++ obj ++ rest ∧
        (∀ c ∈ pre, c ≠ '{') ∧ BalancedObject obj) ∧
    ((∀ c ∈ text, c ≠ '{') → extractJSON text = none) ∧
    ((∀ c ∈ text, c ≠ '}') → extractJSON text = none) := by
  refine ⟨⟨?_, ?_⟩, ?_, ?_⟩
  · intro h
    rintro ⟨pre, obj, rest, rfl, hpre, hobj⟩
    rw [extractJSON_balanced_at_first_brace rest hpre hobj] at h
    simp at h
  · intro hno
    rcases hE : extractJSON text with _ | s
    · rfl
    · obtain ⟨pre, rest, hsplit, hpre, hbal⟩ := extractJSON_some_sound hE
      exact absurd ⟨pre, s, rest, hsplit, hpre, hbal⟩ hno
  · intro h
    unfold extractJSON
    rw [findBrace_none h none]
  · intro h
    rcases hfb : findBrace text none with _ | ⟨q, rest0⟩
    · unfold extractJSON
      rw [hfb]
    · obtain ⟨pre, hsplit, hpre, cs, hcs⟩ := findBrace_sound hfb
      subst hcs
      unfold extractJSON
      rw [hfb]
      show Option.map (fun n => List.take n ('{' :: cs))
        (scanFrom ('{' :: cs) q false 0) = none
      have htail : ∀ a ∈ cs, a ≠ '}' := by
        intro a ha
        refine h a ?_
        rw [hsplit]
        exact List.mem_append_right pre (List.mem_cons_of_mem _ ha)
      rw [scanFrom_cons]
      have hin : nextInString q '{' false = false := nextInString_not_quote (by decide)
      rw [if_neg (by simp [hin])]
      have hdep : nextDepth '{' (0 : Int) = 1 := by simp [nextDepth]
      rw [if_neg (by rw [hdep]; omega), hin, hdep,
        scanFrom_no_close (some '{') false (by omega) htail]
      rfl

/-- Witness for C4: text with an unmatched opening brace and no closing
brace yields the not-found signal. -/
theorem extractJSON_none_characterisation_witness :
    extractJSON (("\x7b\"a\":1").toList) = none :=
  (extractJSON_none_characterisation _).2.2 (by decide)

/-! ### C5: quote toggling and the inString depth guard -/

/-- C5: during the extraction scan, the inString flag is toggled by every
double-quote character whose immediately preceding character is not a
backslash, and is never toggled by a double quote immediately preceded by a
backslash — whatever stands before that backslash, since only the single
preceding character is inspected — and brace characters change the depth
counter only when the inString flag is false: while it is true the scan
passes both the flag and the depth through unchanged, and while it is false
a brace changes the depth by one. -/
theorem scan_inString_toggle_and_depth_guard :
    (∀ (prev : Option Char) (b : Bool), prev ≠ some '\\' →
        nextInString prev '"' b = !b) ∧
    (∀ b : Bool, nextInString (some '\\') '"' b = b) ∧
    (∀ (cs : List Char) (p : Option Char) (d : Int),
        scanFrom ('{' :: cs) p true d = (scanFrom cs (some '{') true d).map (· + 1)) ∧
    (∀ (cs : List Char) (p : Option Char) (d : Int),
        scanFrom ('}' :: cs) p true d = (scanFrom cs (some '}') true d).map (· + 1)) ∧
    (∀ (cs : List Char) (p : Option Char) (d : Int), d + 1 ≠ 0 →
        scanFrom ('{' :: cs) p false d =
          (scanFrom cs (some '{') false (d + 1)).map (· + 1)) ∧
    (∀ (cs : List Char) (p : Option Char) (d : Int), d - 1 ≠ 0 →
        scanFrom ('}' :: cs) p false d =
          (scanFrom cs (some '}') false (d - 1)).map (· + 1)) := by
  refine ⟨?_, ?_, ?_, ?_, ?_, ?_⟩
  · intro prev b hp
    unfold nextInString
    rw [if_pos ⟨rfl, hp⟩]
  · intro b
    unfold nextInString
    rw [if_neg]
    rintro ⟨-, hne⟩
    exact hne rfl
  · intro cs p d
    rw [scanFrom_cons, nextInString_not_quote (by decide), if_pos rfl]
  · intro cs p d
    rw [scanFrom_cons, nextInString_not_quote (by decide), if_pos rfl]
  · intro cs p d hd
    have h1 : nextDepth '{' d = d + 1 := by
      unfold nextDepth
      rw [if_pos rfl]
    rw [scanFrom_cons, nextInString_not_quote (by decide), h1]
    rw [if_neg (by simp), if_neg hd]
  · intro cs p d hd
    have h1 : nextDepth '}' d = d - 1 := by
      unfold nextDepth
      rw [if_neg (by decide), if_pos rfl]
    rw [scanFrom_cons, nextInString_not_quote (by decide), h1]
    rw [if_neg (by simp), if_neg hd]

/-- Witness for C5: an unescaped quote toggles, a backslash-preceded quote
does not, and a brace inside a string recurses with the depth unchanged. -/
theorem scan_inString_toggle_and_depth_guard_witness :
    nextInString none '"' false = !false ∧
    nextInString (some '\\') '"' true = true ∧
    scanFrom ['{'] (some 'x') true 5 = (scanFrom [] (some '{') true 5).map (· + 1) :=
  ⟨scan_inString_toggle_and_depth_guard.1 none false (by decide),
   scan_inString_toggle_and_depth_guard.2.1 true,
   scan_inString_toggle_and_depth_guard.2.2.1 [] (some 'x') 5⟩

/-! ### C6: schema rejection of missing required fields -/

/-- Unfolding equation of the validator at an object. -/
theorem validateJSON_obj (fields : List (String × JSON)) :
    validateJSON (.obj fields) =
      requiredViolations fields ++
      checkOpt fields "prompt" (checkString "/prompt") ++
      checkOpt fields "negative_prompt" (checkString "/negative_prompt") ++
      checkOpt fields "style" (checkString "/style") ++
      checkOpt fields "lighting" (checkString "/lighting") ++
      checkOpt fields "camera" (checkString "/camera") ++
      checkOpt fields "details" detailsViolations ++
      checkOpt fields "params" paramsViolations := rfl

/-- C6: the schema validator rejects every object missing the top-level
field `prompt` or missing the top-level field `params`, reporting a
violation that names the missing field, and rejects every object whose
`details` sub-object is present but lacks `details.subject`, reporting that
missing field as well. -/
theorem validateJSON_missing_required :
    (∀ fields : List (String × JSON), lookupField fields "prompt" = none →
        Violation.missingField "" "prompt" ∈ validateJSON (.obj fields) ∧
        validateJSON (.obj fields) ≠ []) ∧
    (∀ fields : List (String × JSON), lookupField fields "params" = none →
        Violation.missingField "" "params" ∈ validateJSON (.obj fields) ∧
        validateJSON (.obj fields) ≠ []) ∧
    (∀ (fields df : List (String × JSON)),
        lookupField fields "details" = some (.obj df) →
        lookupField df "subject" = none →
        Violation.missingField "/details" "subject" ∈ validateJSON (.obj fields) ∧
        validateJSON (.obj fields) ≠ []) := by
  refine ⟨?_, ?_, ?_⟩
  · intro fields h
    have hmem : Violation.missingField "" "prompt" ∈ validateJSON (.obj fields) := by
      rw [validateJSON_obj]
      unfold requiredViolations
      rw [h]
      simp
    exact ⟨hmem, List.ne_nil_of_mem hmem⟩
  · intro fields h
    have hmem : Violation.missingField "" "params" ∈ validateJSON (.obj fields) := by
      rw [validateJSON_obj]
      unfold requiredViolations
      rw [h]
      simp
    exact ⟨hmem, List.ne_nil_of_mem hmem⟩
  · intro fields df hdet hsubj
    have hmem : Violation.missingField "/details" "subject" ∈ validateJSON (.obj fields) := by
      rw [validateJSON_obj]
      simp only [checkOpt, hdet, detailsViolations, hsubj]
      simp
    exact ⟨hmem, List.ne_nil_of_mem hmem⟩

/-- Witness for C6: the object carrying only `params` is rejected with a
violation naming the missing `prompt`. -/
theorem validateJSON_missing_required_witness :
    Violation.missingField "" "prompt" ∈ validateJSON (.obj [("params", .obj [])]) ∧
    validateJSON (.obj [("params", .obj [])]) ≠ [] :=
  validateJSON_missing_required.1 [("params", .obj [])] (by rfl)

/-! ### C2: server-side engine enforcement -/

/-- Looking up a property right after assigning it yields the assigned
value. -/
theorem lookupField_setField (fields : List (String × JSON)) (key : String) (v : JSON) :
    lookupField (setField fields key v) key = some v := by
  induction fields with
  | nil => simp [setField, lookupField]
  | cons kv rest ih =>
    obtain ⟨k, w⟩ := kv
    by_cases hk : k = key
    · simp [setField, lookupField, hk]
    · simp only [setField, if_neg hk, lookupField]
      exact ih

/-- A spec accepted by the validator is an object whose `params` property is
present and is itself an object. -/
theorem validateJSON_params_object {j : JSON} (h : validateJSON j = []) :
    ∃ fields pf, j = .obj fields ∧ lookupField fields "params" = some (.obj pf) := by
  cases j with
  | null => simp [validateJSON] at h
  | bool b => simp [validateJSON] at h
  | num n => simp [validateJSON] at h
  | str s => simp [validateJSON] at h
  | arr xs => simp [validateJSON] at h
  | obj fields =>
    rw [validateJSON_obj] at h
    simp only [List.append_eq_nil] at h
    obtain ⟨⟨⟨⟨⟨⟨⟨hreq, h1⟩, h2⟩, h3⟩, h4⟩, h5⟩, h6⟩, h7⟩ := h
    have hps : (lookupField fields "params").isSome = true := by
      by_contra hns
      simp only [requiredViolations, List.append_eq_nil] at hreq
      obtain ⟨-, hB⟩ := hreq
      rw [if_neg hns] at hB
      simp at hB
    rcases hv : lookupField fields "params" with _ | v
    · rw [hv] at hps
      simp at hps
    · simp only [checkOpt, hv] at h7
      cases v with
      | obj pf => exact ⟨fields, pf, rfl, hv⟩
      | null => simp [paramsViolations] at h7
      | bool b => simp [paramsViolations] at h7
      | num n => simp [paramsViolations] at h7
      | str s => simp [paramsViolations] at h7
      | arr xs => simp [paramsViolations] at h7

/-- Unfolding equation of the enforcement step at an object. -/
theorem enforceEngine_obj (fields : List (String × JSON)) (E : JSON) :
    enforceEngine (.obj fields) E =
      match lookupField fields "params" with
      | some (.obj pf) =>
          some (.obj (setField fields "params" (.obj (setField pf "engine" E))))
      | _ => none := rfl

/-- Enforcement on any validated spec: the result is an object whose
`params.engine` holds exactly the server-accepted value. -/
theorem enforceEngine_on_validated {j : JSON} (E : JSON) (h : validateJSON j = []) :
    ∃ fields pf, enforceEngine j E = some (.obj fields) ∧
      lookupField fields "params" = some (.obj pf) ∧
      lookupField pf "engine" = some E := by
  obtain ⟨fields, pf, rfl, hp⟩ := validateJSON_params_object h
  refine ⟨setField fields "params" (.obj (setField pf "engine" E)),
    setField pf "engine" E, ?_, ?_, ?_⟩
  · rw [enforceEngine_obj, hp]
  · exact lookupField_setField fields "params" (.obj (setField pf "engine" E))
  · exact lookupField_setField pf "engine" E

/-- C2: for every validated ImageSpec object and every server-accepted
engine preference value E, the policy-enforcement step sets `params.engine`
to E, so the returned spec satisfies `params.engine == E` regardless of the
engine value (or absence of one) the model produced. -/
theorem policy_enforces_engine (j E : JSON) (h : validateJSON j = []) :
    ∃ fields pf, enforceEngine j E = some (.obj fields) ∧
      lookupField fields "params" = some (.obj pf) ∧
      lookupField pf "engine" = some E :=
  enforceEngine_on_validated E h

/-- Witness for C2: a validated spec whose model-produced engine is
`"midjourney"` comes out with `params.engine` equal to the server value. -/
theorem policy_enforces_engine_witness :
    ∃ fields pf,
      enforceEngine (.obj [("prompt", .str "x"),
          ("params", .obj [("engine", .str "midjourney")])]) (.str "stable") =
        some (.obj fields) ∧
      lookupField fields "params" = some (.obj pf) ∧
      lookupField pf "engine" = some (.str "stable") :=
  policy_enforces_engine _ _ (by rfl)

/-! ### C7: the empty-prompt check precedes everything else -/

/-- The first guard of the handler: an empty sanitized prompt returns
before anything else runs. -/
theorem convert_empty_prompt (hasKey : Bool) (provider : ProviderResult)
    (parse : List Char → Option JSON) {bodyPrompt : Option JSON}
    (bodyEngine : Option JSON) (h : sanitizeInput bodyPrompt = []) :
    convert hasKey provider parse bodyPrompt bodyEngine =
      (.failed .emptyPrompt, false) := by
  simp [convert, h]

/-- C7: for every request whose sanitized prompt is empty, the pipeline
terminates immediately with the EmptyPrompt failure (the caller-fault
branch) and the provider call is not reached — in particular even when the
provider credential is missing (`hasKey = false`), since the empty-input
check precedes the credential check and the provider call. -/
theorem empty_prompt_short_circuits (hasKey : Bool) (provider : ProviderResult)
    (parse : List Char → Option JSON) (bodyPrompt bodyEngine : Option JSON)
    (h : sanitizeInput bodyPrompt = []) :
    convert hasKey provider parse bodyPrompt bodyEngine =
      (.failed .emptyPrompt, false) :=
  convert_empty_prompt hasKey provider parse bodyEngine h

/-- Witness for C7: a whitespace-only prompt with no credential configured
still yields EmptyPrompt with no provider call. -/
theorem empty_prompt_short_circuits_witness :
    convert false (.httpError []) (fun _ => none) (some (.str "   ")) none =
      (.failed .emptyPrompt, false) :=
  empty_prompt_short_circuits false (.httpError []) (fun _ => none)
    (some (.str "   ")) none (by decide)

/-! ### C8: the input sanitizer -/

/-- C8: for every input value the sanitizer returns the input trimmed of
surrounding whitespace and truncated to at most 800 code units when the
input is a string, returns the empty string for every non-string input and
for every string whose trimmed form is empty, and its result length never
exceeds 800. -/
theorem sanitizeInput_trim_cap :
    (∀ s : String, sanitizeInput (some (.str s)) = (jsTrim s.data).take 800) ∧
    (∀ v : Option JSON, (∀ s, v ≠ some (.str s)) → sanitizeInput v = []) ∧
    (∀ s : String, jsTrim s.data = [] → sanitizeInput (some (.str s)) = []) ∧
    (∀ v : Option JSON, (sanitizeInput v).length ≤ 800) := by
  have hstr : ∀ s : String, sanitizeInput (some (.str s)) = (jsTrim s.data).take 800 := by
    intro s
    by_cases hs : s = ""
    · subst hs
      simp [sanitizeInput, jsTrim]
    · simp [sanitizeInput, hs]
  refine ⟨hstr, ?_, ?_, ?_⟩
  · intro v hv
    rcases v with _ | j
    · rfl
    · rcases j with _ | b | n | s | xs | fs
      · rfl
      · rfl
      · rfl
      · exact absurd rfl (hv s)
      · rfl
      · rfl
  · intro s h
    rw [hstr s, h]
    rfl
  · intro v
    rcases v with _ | j
    · simp [sanitizeInput]
    · rcases j with _ | b | n | s | xs | fs
      · simp [sanitizeInput]
      · simp [sanitizeInput]
      · simp [sanitizeInput]
      · rw [hstr s]
        simp [List.length_take]
      · simp [sanitizeInput]
      · simp [sanitizeInput]

/-- Witness for C8: a whitespace-only string sanitizes to the empty
string. -/
theorem sanitizeInput_trim_cap_witness :
    sanitizeInput (some (.str "  ")) = [] :=
  sanitizeInput_trim_cap.2.2.1 "  " (by decide)

/-! ### C9 and C10: empty params and the default engine -/

/-- C9: the schema validator requires no fields inside `params`: the object
carrying only `prompt` and an empty `params` — none of engine, resolution,
cfg_scale, steps, sampler, or seed — passes validation, and a full pipeline
run on provider output carrying exactly that object completes with a spec
whose `params` object holds the server-enforced engine as its only field. -/
theorem params_requires_no_fields :
    validateJSON (.obj [("prompt", .str "x"), ("params", .obj [])]) = [] ∧
    paramsViolations (.obj []) = [] ∧
    convert true (.success (("\x7b\"prompt\":\"x\",\"params\":\x7b\x7d\x7d").toList))
        (fun c =>
          if c = ("\x7b\"prompt\":\"x\",\"params\":\x7b\x7d\x7d").toList
          then some (.obj [("prompt", .str "x"), ("params", .obj [])]) else none)
        (some (.str "a red fox in snow")) none =
      (.completed (.obj [("prompt", .str "x"),
        ("params", .obj [("engine", .str "stable")])]), true) :=
  ⟨rfl, rfl, rfl⟩

/-- A body engine that is absent or falsy gives the default preference. -/
theorem enginePrefOf_falsy {bodyEngine : Option JSON}
    (h : ∀ v, bodyEngine = some v → isTruthy v = false) :
    enginePrefOf bodyEngine = .str "stable" := by
  cases bodyEngine with
  | none => rfl
  | some v =>
    have hv := h v rfl
    simp [enginePrefOf, hv]

/-- Inversion of the pipeline: a completed outcome always comes from a
parsed object that passed validation and then had its engine enforced. -/
theorem convert_completed {hasKey : Bool} {provider : ProviderResult}
    {parse : List Char → Option JSON} {bodyPrompt bodyEngine : Option JSON}
    {spec : JSON} {called : Bool}
    (h : convert hasKey provider parse bodyPrompt bodyEngine = (.completed spec, called)) :
    ∃ outputObj, validateJSON outputObj = [] ∧
      enforceEngine outputObj (enginePrefOf bodyEngine) = some spec := by
  by_cases hsan : sanitizeInput bodyPrompt = []
  · rw [convert_empty_prompt hasKey provider parse bodyEngine hsan] at h
    simp at h
  · simp only [convert] at h
    rw [if_neg hsan] at h
    by_cases hk : hasKey = false
    · rw [if_pos hk] at h
      simp at h
    · rw [if_neg hk] at h
      rcases provider with d | rawText
      · simp at h
      · simp only at h
        by_cases hraw : rawText = []
        · rw [if_pos hraw] at h
          simp at h
        · rw [if_neg hraw] at h
          rcases hex : extractJSON rawText with _ | cand
          · simp only [hex] at h
            simp at h
          · simp only [hex] at h
            rcases hp : parse cand with _ | outputObj
            · simp only [hp] at h
              simp at h
            · simp only [hp] at h
              rcases hv : validateJSON outputObj with _ | ⟨v, vs⟩
              · simp only [hv] at h
                rcases he : enforceEngine outputObj (enginePrefOf bodyEngine) with _ | spec2
                · simp only [he] at h
                  simp at h
                · simp only [he] at h
                  simp only [Prod.mk.injEq] at h
                  obtain ⟨hspec, -⟩ := h
                  obtain rfl : spec2 = spec := by
                    cases hspec
                    rfl
                  exact ⟨outputObj, hv, he⟩
              · simp only [hv] at h
                simp at h

/-- C10: when the request body's engine field is absent (or any falsy
value), the server-accepted engine preference defaults to `"stable"`, so a
completed pipeline run produces a spec whose `params.engine` equals
`"stable"`. -/
theorem engine_defaults_to_stable (hasKey : Bool) (provider : ProviderResult)
    (parse : List Char → Option JSON) (bodyPrompt bodyEngine : Option JSON)
    (spec : JSON) (called : Bool)
    (hfalsy : ∀ v, bodyEngine = some v → isTruthy v = false)
    (hres : convert hasKey provider parse bodyPrompt bodyEngine =
      (.completed spec, called)) :
    ∃ fields pf, spec = .obj fields ∧
      lookupField fields "params" = some (.obj pf) ∧
      lookupField pf "engine" = some (.str "stable") := by
  obtain ⟨outputObj, hval, henf⟩ := convert_completed hres
  rw [enginePrefOf_falsy hfalsy] at henf
  obtain ⟨fields, pf, henf2, hlook, heng⟩ :=
    enforceEngine_on_validated (JSON.str "stable") hval
  rw [henf2] at henf
  exact ⟨fields, pf, (Option.some.inj henf).symm, hlook, heng⟩

/-- Witness for C10: a full run with a falsy body engine completes with
`params.engine` equal to `"stable"`. -/
theorem engine_defaults_to_stable_witness :
    ∃ fields pf,
      JSON.obj [("prompt", .str "x"), ("params", .obj [("engine", .str "stable")])] =
        .obj fields ∧
      lookupField fields "params" = some (.obj pf) ∧
      lookupField pf "engine" = some (.str "stable") :=
  engine_defaults_to_stable true
    (.success (("\x7b\"prompt\":\"x\",\"params\":\x7b\x7d\x7d").toList))
    (fun _ => some (.obj [("prompt", .str "x"), ("params", .obj [])]))
    (some (.str "hello")) (some (.str ""))
    (.obj [("prompt", .str "x"), ("params", .obj [("engine", .str "stable")])]) true
    (fun v hv => by cases hv; decide)
    (by rfl)

end JSONPromptee
